import Mathlib

/-!
Verification of the pydynox request-execution engine against its
natural-language specification.

The definitions below are a shallow embedding of the Python sources under
`src/python/pydynox/`:

* `client.py` (`DynamoDBClient`): single-item and batch operations are
  modelled by the ordered list of rate-limiter/wire events they emit.
* `query.py` (`QueryResult`): the pagination state machine is translated
  field by field; the store (`pydynox_core.query_page`, implemented in the
  Rust extension) is a parameter `server : Option Nat → List Item × Option Nat`
  mapping an exclusive start key to a page and a next cursor.
* `attributes.py`: the serialize/deserialize pairs of `TTLAttribute`,
  `EnumAttribute`, `DatetimeAttribute`, `StringSetAttribute`,
  `NumberSetAttribute`.
* `model.py` (`Model.__eq__`, `Model._get_key`) and `indexes.py`
  (`GlobalSecondaryIndex.query`).
-/

namespace Pydynox

/-- An observable side effect of a client operation, in program order:
a rate-limiter acquisition (`DynamoDBClient._acquire_rcu` / `_acquire_wcu`
with the given unit amount) or the wire call to the underlying store. -/
inductive Ev where
  | acquireRead (units : Rat)
  | acquireWrite (units : Rat)
  | wireCall
  deriving DecidableEq

/-- `DynamoDBClient._acquire_rcu`: forwards to the configured rate limiter,
or is a no-op when no limiter is configured (`client.py` lines 77-80). -/
def acquireRcuEv (hasLimiter : Bool) (units : Rat) : List Ev :=
  if hasLimiter then [Ev.acquireRead units] else []

/-- `DynamoDBClient._acquire_wcu` (`client.py` lines 82-85). -/
def acquireWcuEv (hasLimiter : Bool) (units : Rat) : List Ev :=
  if hasLimiter then [Ev.acquireWrite units] else []

/-- Events of `DynamoDBClient.put_item`: `self._acquire_wcu(1.0)` then the
wire call (`client.py` lines 125-126). -/
def putItemEvents (hasLimiter : Bool) : List Ev :=
  acquireWcuEv hasLimiter 1 ++ [Ev.wireCall]

/-- Events of `DynamoDBClient.delete_item` (`client.py` lines 197-198). -/
def deleteItemEvents (hasLimiter : Bool) : List Ev :=
  acquireWcuEv hasLimiter 1 ++ [Ev.wireCall]

/-- Events of `DynamoDBClient.update_item` (`client.py` lines 243-244). -/
def updateItemEvents (hasLimiter : Bool) : List Ev :=
  acquireWcuEv hasLimiter 1 ++ [Ev.wireCall]

/-- Events of `DynamoDBClient.get_item`: `self._acquire_rcu(1.0)` then the
wire call (`client.py` lines 159-160); the acquired amount does not depend
on any consistency mode. -/
def getItemEvents (hasLimiter : Bool) : List Ev :=
  acquireRcuEv hasLimiter 1 ++ [Ev.wireCall]

/-- Extra keyword parameters accepted by `DynamoDBClient.get_item` beyond
`(table, key)`: its signature is `get_item(self, table, key)` only
(`client.py` line 143). -/
def getItemExtraParams : List String := []

/-- Extra keyword arguments `Model.get` passes to `client.get_item` beyond
`(table, keys)`: it always passes `consistent_read=use_consistent`
(`model.py` line 569). -/
def modelGetExtraArgs : List String := ["consistent_read"]

/-- A Python runtime error raised before any operation effect. -/
inductive PyError where
  | typeError
  deriving DecidableEq

/-- `Model.get`: resolves the client and table, then calls
`client.get_item(table, keys, consistent_read=use_consistent)`.  Python
keyword dispatch rejects the call (TypeError) because the wrapper's
`get_item` accepts no `consistent_read` parameter, so no events are emitted. -/
def modelGetEvents (hasLimiter : Bool) (_consistentRead : Bool) :
    Except PyError (List Ev) :=
  if modelGetExtraArgs.all (fun a => getItemExtraParams.contains a) then
    Except.ok (getItemEvents hasLimiter)
  else
    Except.error PyError.typeError

/-- Events of `DynamoDBClient.batch_write` (`client.py` lines 356-359):
`put_count`/`delete_count` are 0 when the corresponding argument is `None`
or empty, one `_acquire_wcu(put_count + delete_count)` precedes the single
wire call (chunking and unprocessed-item retries live in the Rust core
below the wire boundary). -/
def batchWriteEvents {I K : Type} (hasLimiter : Bool)
    (putItems : Option (List I)) (deleteKeys : Option (List K)) : List Ev :=
  let putCount := (putItems.getD []).length
  let deleteCount := (deleteKeys.getD []).length
  acquireWcuEv hasLimiter ((putCount : Rat) + (deleteCount : Rat)) ++ [Ev.wireCall]

/-- Events of `DynamoDBClient.batch_get` (`client.py` lines 397-398):
`self._acquire_rcu(float(len(keys)))` then the single wire call. -/
def batchGetEvents {K : Type} (hasLimiter : Bool) (keys : List K) : List Ev :=
  acquireRcuEv hasLimiter ((keys.length : Rat)) ++ [Ev.wireCall]

/-- `OperationMetrics` as surfaced by the metrics interface:
duration, consumed read/write capacity, retry count. -/
structure OperationMetrics where
  durationMs : Rat
  consumedRcu : Option Rat
  consumedWcu : Option Rat
  retryCount : Nat
  deriving DecidableEq

/-- `DictWithMetrics` (`_internal/_metrics.py` lines 13-24): the item's own
key/value mapping together with a separate `metrics` attribute. -/
structure DictWithMetrics (V : Type) where
  data : List (String × V)
  metrics : OperationMetrics
  deriving DecidableEq

/-- `DynamoDBClient.get_item` (`client.py` lines 143-171): acquire 1 RCU,
call the store, return `None` when the store found nothing, otherwise wrap
the found item and the attempt's metrics in a `DictWithMetrics`. -/
def getItemOp {V : Type} (hasLimiter : Bool)
    (store : List (String × V) → Option (List (String × V)) × OperationMetrics)
    (key : List (String × V)) : List Ev × Option (DictWithMetrics V) :=
  let events := getItemEvents hasLimiter
  let res := store key
  match res.1 with
  | none => (events, none)
  | some item => (events, some ⟨item, res.2⟩)

/-! ### Attribute serialization (`attributes.py`) -/

/-- A Python `datetime`: wall-clock microseconds since the epoch in the
datetime's own frame, plus the `tzinfo` UTC offset in seconds (`none` for a
naive datetime). -/
structure PyDatetime where
  wallMicros : Int
  utcOffSecs : Option Int
  deriving DecidableEq

/-- Python `==` on `datetime`: two aware datetimes are equal iff they denote
the same instant; a naive and an aware datetime are never equal. -/
def pyDatetimeEq (a b : PyDatetime) : Bool :=
  match a.utcOffSecs, b.utcOffSecs with
  | none, none => a.wallMicros == b.wallMicros
  | some x, some y => (a.wallMicros - x * 1000000) == (b.wallMicros - y * 1000000)
  | _, _ => false

/-- `datetime.timestamp()` in microseconds.  A naive datetime is interpreted
in the platform-local offset `localOffSecs`. -/
def timestampMicros (localOffSecs : Int) (d : PyDatetime) : Int :=
  match d.utcOffSecs with
  | none => d.wallMicros - localOffSecs * 1000000
  | some o => d.wallMicros - o * 1000000

/-- Python `int(...)` applied to a timestamp of `micros / 10^6` seconds:
truncation toward zero (division below is only ever applied to a
non-negative numerator, where all integer-division conventions agree). -/
def truncSecs (micros : Int) : Int :=
  if 0 ≤ micros then micros / 1000000 else -((-micros) / 1000000)

/-- `TTLAttribute.serialize` (`attributes.py` lines 319-330):
`None` stays `None`, otherwise `int(value.timestamp())`. -/
def ttlSerialize (localOffSecs : Int) (value : Option PyDatetime) : Option Int :=
  value.map (fun d => truncSecs (timestampMicros localOffSecs d))

/-- `TTLAttribute.deserialize` (`attributes.py` lines 332-341):
`datetime.fromtimestamp(float(value), tz=timezone.utc)`. -/
def ttlDeserialize (value : Int) : PyDatetime :=
  { wallMicros := value * 1000000, utcOffSecs := some 0 }

/-- A Python primitive usable as an enum member value: a string or an int. -/
inductive PyPrim where
  | pstr (s : String)
  | pint (n : Int)
  deriving DecidableEq

/-- Python `str(...)` on a `PyPrim`. -/
def pyStr : PyPrim → String
  | .pstr s => s
  | .pint n => toString n

/-- An `Enum` subclass, given by its member values in definition order. -/
structure PyEnumDef where
  values : List PyPrim
  deriving DecidableEq

/-- `EnumAttribute.serialize` (`attributes.py` lines 708-719):
`None` stays `None`, otherwise `str(value.value)`. -/
def enumSerialize (value : Option PyPrim) : Option String :=
  value.map pyStr

/-- `EnumAttribute.deserialize` (`attributes.py` lines 721-732): `None` stays
`None`, otherwise `enum_class(value)` looks the member up by `==` against the
stored string and raises `ValueError` (modelled as `Except.error`) when no
member value equals it. -/
def enumDeserialize (cls : PyEnumDef) (value : Option String) :
    Except Unit (Option PyPrim) :=
  match value with
  | none => Except.ok none
  | some s =>
    match cls.values.find? (fun m => m == PyPrim.pstr s) with
    | some m => Except.ok (some m)
    | none => Except.error ()

/-- `DatetimeAttribute.serialize` (`attributes.py` lines 773-787): `None`
stays `None`, a naive datetime gets `tzinfo` replaced by UTC, and the result
is rendered with `isoformat()`.  The ISO 8601 string is represented here by
its parsed content, since `datetime.fromisoformat` is the exact inverse of
`datetime.isoformat` on Python datetimes. -/
def datetimeSerialize (value : Option PyDatetime) : Option PyDatetime :=
  value.map (fun d => if d.utcOffSecs.isNone then { d with utcOffSecs := some 0 } else d)

/-- `DatetimeAttribute.deserialize` (`attributes.py` lines 789-800):
`None` stays `None`, otherwise `datetime.fromisoformat(value)` (see
`datetimeSerialize` for the wire representation). -/
def datetimeDeserialize (value : Option PyDatetime) : Option PyDatetime :=
  value

/-- `StringSetAttribute.serialize` (`attributes.py` lines 824-835): `None`
and the empty set map to `None`, otherwise `list(value)` (Python's set
iteration order is unspecified; the listing is modelled canonically sorted). -/
def stringSetSerialize (value : Option (Finset String)) : Option (List String) :=
  match value with
  | none => none
  | some s => if s.card = 0 then none else some (s.sort (· ≤ ·))

/-- `StringSetAttribute.deserialize` (`attributes.py` lines 837-848):
`None` maps to the empty set, otherwise `set(value)`. -/
def stringSetDeserialize (value : Option (List String)) : Finset String :=
  match value with
  | none => ∅
  | some l => l.toFinset

/-- `NumberSetAttribute.serialize` (`attributes.py` lines 872-883): `None`
and the empty set map to `None`, otherwise `[str(v) for v in value]`.
Numbers are modelled as rationals; the decimal string of each element is
represented by the element itself (Python's `float(str(x)) == x`). -/
def numberSetSerialize (value : Option (Finset Rat)) : Option (List Rat) :=
  match value with
  | none => none
  | some s => if s.card = 0 then none else some (s.sort (· ≤ ·))

/-- `NumberSetAttribute.deserialize` (`attributes.py` lines 885-904): `None`
maps to the empty set, otherwise each element is parsed back to a number
(the int-vs-float collapse `int(num) if num.is_integer()` is the identity
under Python `==`, hence on the rational model). -/
def numberSetDeserialize (value : Option (List Rat)) : Finset Rat :=
  match value with
  | none => ∅
  | some l => l.toFinset

/-! ### Model equality (`model.py`) -/

/-- Python dict lookup with last-write-wins semantics on an association
list. -/
def dictLookup {V : Type} (l : List (String × V)) (k : String) : Option V :=
  match l with
  | [] => none
  | (k', v) :: rest =>
    match dictLookup rest k with
    | some w => some w
    | none => if k' = k then some v else none

/-- Python `==` on dicts represented as association lists: the same keys map
to the same values on both sides. -/
def pyDictEq {V : Type} [DecidableEq V] (a b : List (String × V)) : Bool :=
  (a.map Prod.fst).all (fun k => dictLookup a k == dictLookup b k) &&
    (b.map Prod.fst).all (fun k => dictLookup a k == dictLookup b k)

/-- A `Model` instance: its class identity, proper superclasses, its class's
`_hash_key`/`_range_key` attribute names, and its attribute values
(`none` models an attribute holding Python `None`). -/
structure ModelInst (V : Type) where
  cls : Nat
  supers : List Nat
  hashKeyName : Option String
  rangeKeyName : Option String
  attrs : List (String × V)
  deriving DecidableEq

/-- Python truthiness of an `Optional[str]`: `None` and the empty string are
falsy. -/
def strTruthy : Option String → Bool
  | none => false
  | some s => !(s == "")

/-- `Model._get_key` (`model.py` lines 938-945): a dict with the hash-key
entry when `self._hash_key` is truthy, then the range-key entry when
`self._range_key` is truthy. -/
def getKey {V : Type} (m : ModelInst V) : List (String × Option V) :=
  (if strTruthy m.hashKeyName then
    [(m.hashKeyName.getD "", dictLookup m.attrs (m.hashKeyName.getD ""))]
   else []) ++
  (if strTruthy m.rangeKeyName then
    [(m.rangeKeyName.getD "", dictLookup m.attrs (m.rangeKeyName.getD ""))]
   else [])

/-- `Model.__eq__` (`model.py` lines 1017-1021): `isinstance(other,
self.__class__)` and `self._get_key() == other._get_key()`. -/
def modelEq {V : Type} [DecidableEq V] (a b : ModelInst V) : Bool :=
  (b.cls :: b.supers).contains a.cls && pyDictEq (getKey a) (getKey b)

/-! ### GSI query validation (`indexes.py`) -/

/-- Errors `GlobalSecondaryIndex.query` can raise before returning:
`RuntimeError` for an unbound index, `ValueError` when the GSI hash key is
missing from the keyword arguments. -/
inductive GsiQueryError where
  | unboundIndex
  | missingHashKey
  deriving DecidableEq

/-- A `GlobalSecondaryIndex` definition (`indexes.py` lines 84-106), with
`bound` tracking whether the metaclass bound it to a model class. -/
structure GSIDef where
  indexName : String
  hashKey : String
  rangeKey : Option String
  bound : Bool
  deriving DecidableEq

/-- The fields a freshly-constructed `GSIQueryResult` records
(`indexes.py` lines 245-272); construction performs no client interaction. -/
structure GSIQueryResultModel (V : Type) where
  indexName : String
  hashKeyName : String
  hashKeyValue : Option V
  limit : Option Nat
  scanIndexForward : Bool
  deriving DecidableEq

/-- `GlobalSecondaryIndex.query` (`indexes.py` lines 125-193): raise for an
unbound index, raise `ValueError` when the keyword arguments do not contain
the GSI's hash key, otherwise return a lazy `GSIQueryResult`.  The first
component collects the limiter/wire events emitted before returning: there
are none on any path (page fetches happen only on iteration). -/
def gsiQuery {V : Type} (g : GSIDef) (keyValues : List (String × V))
    (limit : Option Nat) (scanIndexForward : Bool) :
    List Ev × Except GsiQueryError (GSIQueryResultModel V) :=
  if !g.bound then
    ([], Except.error GsiQueryError.unboundIndex)
  else if !((keyValues.map Prod.fst).contains g.hashKey) then
    ([], Except.error GsiQueryError.missingHashKey)
  else
    ([], Except.ok
      { indexName := g.indexName
        hashKeyName := g.hashKey
        hashKeyValue := dictLookup keyValues g.hashKey
        limit := limit
        scanIndexForward := scanIndexForward })

/-! ### Pagination engine (`query.py`) -/

/-- The mutable state of a `QueryResult` (`query.py` lines 47-54): the
explicit start key, the in-memory page buffer and read index into it, the
held cursor, and the exhausted/first-fetch flags.  The opaque key-shaped
cursor token is modelled as a `Nat`. -/
structure QRState (Item : Type) where
  startKey : Option Nat
  currentPage : List Item
  pageIndex : Nat
  lastEvaluatedKey : Option Nat
  exhausted : Bool
  firstFetch : Bool
  deriving DecidableEq

/-- `QueryResult.__init__` state (`query.py` lines 47-54). -/
def initQR {Item : Type} (startKey : Option Nat) : QRState Item :=
  { startKey := startKey
    currentPage := []
    pageIndex := 0
    lastEvaluatedKey := none
    exhausted := false
    firstFetch := true }

/-- `QueryResult._fetch_next_page` (`query.py` lines 90-123): skip and mark
exhausted when a previous fetch already returned a null cursor; otherwise
call the store with the explicit start key on the first fetch and the held
cursor thereafter, replace the buffer, reset the read index, record the
returned cursor, and mark exhausted when that cursor is null.  The RCU
acquisition of lines 102-104 is not tracked in this state. -/
def fetchNextPage {Item : Type} (server : Option Nat → List Item × Option Nat)
    (s : QRState Item) : QRState Item :=
  if !s.firstFetch && s.lastEvaluatedKey.isNone then
    { s with exhausted := true }
  else
    let startKey := if s.firstFetch then s.startKey else s.lastEvaluatedKey
    let page := server startKey
    { s with
      firstFetch := false
      currentPage := page.1
      pageIndex := 0
      lastEvaluatedKey := page.2
      exhausted := if page.2.isNone then true else s.exhausted }

/-- `QueryResult.__next__` (`query.py` lines 68-88): yield the next buffered
item if any; stop if exhausted; otherwise fetch the next page, stop if it is
empty, else yield its item at the read index.  `none` models
`StopIteration`; in every case the second component is the object's state
after the call.  The final fallthrough models the Python `IndexError` that
would occur if the fetch's skip branch left a consumed non-empty buffer; it
is unreachable from `initQR` states because a null recorded cursor always
comes with `exhausted = true`. -/
def nextItem {Item : Type} (server : Option Nat → List Item × Option Nat)
    (s : QRState Item) : Option Item × QRState Item :=
  match s.currentPage[s.pageIndex]? with
  | some it => (some it, { s with pageIndex := s.pageIndex + 1 })
  | none =>
    if s.exhausted then (none, s)
    else
      let t := fetchNextPage server s
      if t.currentPage.isEmpty then (none, t)
      else
        match t.currentPage[t.pageIndex]? with
        | some it => (some it, { t with pageIndex := t.pageIndex + 1 })
        | none => (none, t)

/-- Iterating a `QueryResult` as a `for` loop does: collect yielded items
until `StopIteration`, bounded by `fuel` calls to `__next__`; returns the
collected items and the final state. -/
def runQR {Item : Type} (server : Option Nat → List Item × Option Nat) :
    Nat → QRState Item → List Item × QRState Item
  | 0, s => ([], s)
  | fuel + 1, s =>
    match nextItem server s with
    | (none, t) => ([], t)
    | (some it, t) =>
      let r := runQR server fuel t
      (it :: r.1, r.2)

/-- The page index a cursor token points at: a null start key means the
first page. -/
def keyIdx : Option Nat → Nat
  | none => 0
  | some k => k

/-- A store holding the fixed server-side pages `pages`: a fetch with cursor
`c` returns page `keyIdx c` and a cursor to the following page, null when no
page follows. -/
def pagesServer {Item : Type} (pages : List (List Item)) :
    Option Nat → List Item × Option Nat :=
  fun cursor =>
    let k := keyIdx cursor
    (pages.getD k [], if k + 1 < pages.length then some (k + 1) else none)

/-- The `QRState` reached against `pagesServer pages` right after fetching
page `k`, with `i` of its items already consumed. -/
def pageState {Item : Type} (pages : List (List Item)) (startKey : Option Nat)
    (k i : Nat) : QRState Item :=
  { startKey := startKey
    currentPage := pages.getD k []
    pageIndex := i
    lastEvaluatedKey := if k + 1 < pages.length then some (k + 1) else none
    exhausted := if k + 1 < pages.length then false else true
    firstFetch := false }

/-- The concatenation of `m` consecutive pages starting at page `k`. -/
def segFlatten {Item : Type} (pages : List (List Item)) : Nat → Nat → List Item
  | _, 0 => []
  | k, m + 1 => pages.getD k [] ++ segFlatten pages (k + 1) m

/-- The key the next fetch of `s` would be issued with (`query.py` line 98). -/
def pendKey {Item : Type} (s : QRState Item) : Option Nat :=
  if s.firstFetch then s.startKey else s.lastEvaluatedKey

/-- An upper bound on how many items iteration can still yield from state
`s` against `pagesServer pages`. -/
def qBound {Item : Type} (pages : List (List Item)) (s : QRState Item) : Nat :=
  (s.currentPage.length - s.pageIndex) +
    (if s.exhausted then 0 else ((pages.drop (keyIdx (pendKey s))).flatten).length)

/-! ### Helper lemmas -/

theorem truncSecs_mul_cancel {m : Int} (h : (1000000 : Int) ∣ m) :
    truncSecs m * 1000000 = m := by
  unfold truncSecs
  split
  · exact Int.ediv_mul_cancel h
  · have h2 : (1000000 : Int) ∣ -m := Dvd.dvd.neg_right h
    rw [neg_mul, Int.ediv_mul_cancel h2, neg_neg]

theorem find?_beq_self {α : Type} [DecidableEq α] (x : α) :
    ∀ l : List α, x ∈ l → l.find? (fun m => m == x) = some x := by
  intro l hx
  induction l with
  | nil => cases hx
  | cons a t ih =>
    rw [List.find?_cons]
    by_cases hax : a = x
    · subst hax
      simp
    · have hbeq : (a == x) = false := by simp [hax]
      rw [hbeq]
      exact ih (by cases hx with
        | head => exact absurd rfl hax
        | tail _ h => exact h)

theorem dictLookup_eq_none {V : Type} (l : List (String × V)) (k : String)
    (h : k ∉ l.map Prod.fst) : dictLookup l k = none := by
  induction l with
  | nil => rfl
  | cons p t ih =>
    simp only [List.map_cons, List.mem_cons, not_or] at h
    unfold dictLookup
    rw [ih h.2, if_neg (fun hk => h.1 hk.symm)]

theorem pyDictEq_iff {V : Type} [DecidableEq V] (a b : List (String × V)) :
    pyDictEq a b = true ↔ ∀ k, dictLookup a k = dictLookup b k := by
  unfold pyDictEq
  rw [Bool.and_eq_true, List.all_eq_true, List.all_eq_true]
  constructor
  · rintro ⟨h1, h2⟩ k
    by_cases ha : k ∈ a.map Prod.fst
    · have := h1 k ha
      simpa using this
    · by_cases hb : k ∈ b.map Prod.fst
      · have := h2 k hb
        simpa using this
      · rw [dictLookup_eq_none a k ha, dictLookup_eq_none b k hb]
  · intro h
    exact ⟨fun k _ => by simp [h k], fun k _ => by simp [h k]⟩

/-! ### Claim theorems -/

/-- C4: before dispatch, put/delete/update each acquire exactly 1 write
unit and get acquires exactly 1 read unit; but no strongly-consistent get
path acquiring 2 read units exists: `DynamoDBClient.get_item` acquires 1
RCU unconditionally, and `Model.get` — the only caller that takes
`consistent_read` — always fails with `TypeError` because it passes
`consistent_read=` to a wrapper whose `get_item` does not accept it. -/
theorem c4_single_item_capacity_code_bug :
    putItemEvents true = [Ev.acquireWrite 1, Ev.wireCall] ∧
    deleteItemEvents true = [Ev.acquireWrite 1, Ev.wireCall] ∧
    updateItemEvents true = [Ev.acquireWrite 1, Ev.wireCall] ∧
    getItemEvents true = [Ev.acquireRead 1, Ev.wireCall] ∧
    (∀ hasLimiter consistentRead : Bool,
      modelGetEvents hasLimiter consistentRead = Except.error PyError.typeError) ∧
    getItemEvents true ≠ [Ev.acquireRead 2, Ev.wireCall] := by
  refine ⟨rfl, rfl, rfl, rfl, ?_, by decide⟩
  intro hasLimiter consistentRead
  rfl

/-- C5: `get_item` on a key the store has no item for returns `None` (a
defined not-found result, not an error); on a found item it returns the
stored key/value mapping unchanged, with the operation metrics attached as
a separate `metrics` field. -/
theorem c5_get_item_not_found_and_metrics {V : Type}
    (hasLimiter : Bool)
    (store : List (String × V) → Option (List (String × V)) × OperationMetrics)
    (key item : List (String × V)) (m : OperationMetrics) :
    (store key = (none, m) → (getItemOp hasLimiter store key).2 = none) ∧
    (store key = (some item, m) →
      (getItemOp hasLimiter store key).2 = some ⟨item, m⟩) := by
  constructor <;> intro h <;> simp [getItemOp, h]

theorem c5_witness :
    ((fun _ : List (String × Nat) => ((none, ⟨0, none, none, 0⟩) :
        Option (List (String × Nat)) × OperationMetrics)) [] =
      (none, (⟨0, none, none, 0⟩ : OperationMetrics))) ∧
    (getItemOp true (fun _ => (none, ⟨0, none, none, 0⟩))
      ([] : List (String × Nat))).2 = none ∧
    (getItemOp true (fun _ => (some [("pk", (1 : Nat))], ⟨0, none, none, 0⟩))
      ([] : List (String × Nat))).2 = some ⟨[("pk", 1)], ⟨0, none, none, 0⟩⟩ :=
  ⟨rfl,
   (c5_get_item_not_found_and_metrics true (fun _ => (none, ⟨0, none, none, 0⟩))
     [] [] ⟨0, none, none, 0⟩).1 rfl,
   (c5_get_item_not_found_and_metrics true
     (fun _ => (some [("pk", (1 : Nat))], ⟨0, none, none, 0⟩))
     [] [("pk", 1)] ⟨0, none, none, 0⟩).2 rfl⟩

/-- C6: with a limiter configured, `batch_write` performs exactly one write
acquisition of put-count plus delete-count units before its single wire
dispatch, and `batch_get` exactly one read acquisition of key-count units
before its single wire dispatch. -/
theorem c6_batch_capacity {I K : Type}
    (putItems : Option (List I)) (deleteKeys : Option (List K)) (keys : List K) :
    batchWriteEvents true putItems deleteKeys =
      [Ev.acquireWrite (((putItems.getD []).length : Rat) +
        ((deleteKeys.getD []).length : Rat)), Ev.wireCall] ∧
    batchGetEvents true keys =
      [Ev.acquireRead ((keys.length : Rat)), Ev.wireCall] := by
  exact ⟨rfl, rfl⟩

/-- C8: a bound GSI queried without its declared hash key in the keyword
arguments raises `ValueError` synchronously, with no wire dispatch, no
rate-limiter acquisition, and no page fetch (the emitted event list is
empty). -/
theorem c8_gsi_missing_hash_key {V : Type} (g : GSIDef)
    (keyValues : List (String × V)) (limit : Option Nat)
    (scanIndexForward : Bool)
    (hb : g.bound = true)
    (hmiss : (keyValues.map Prod.fst).contains g.hashKey = false) :
    gsiQuery g keyValues limit scanIndexForward =
      ([], Except.error GsiQueryError.missingHashKey) := by
  unfold gsiQuery
  rw [hb, hmiss]
  rfl

theorem c8_witness :
    (⟨"email-index", "email", none, true⟩ : GSIDef).bound = true ∧
    (([("pk", (1 : Nat))].map Prod.fst).contains "email") = false ∧
    gsiQuery (⟨"email-index", "email", none, true⟩ : GSIDef)
        [("pk", (1 : Nat))] none true =
      ([], Except.error GsiQueryError.missingHashKey) :=
  ⟨rfl, by decide,
   c8_gsi_missing_hash_key ⟨"email-index", "email", none, true⟩
     [("pk", (1 : Nat))] none true rfl (by decide)⟩

/-- C9: `StringSetAttribute` and `NumberSetAttribute` serialize both `None`
and the empty set to `None` and deserialize `None` to the empty set; hence
the empty set round-trips to the empty set and is never written to the
store in set form. -/
theorem c9_empty_sets :
    stringSetSerialize none = none ∧
    stringSetSerialize (some ∅) = none ∧
    stringSetDeserialize none = ∅ ∧
    stringSetDeserialize (stringSetSerialize (some ∅)) = ∅ ∧
    numberSetSerialize none = none ∧
    numberSetSerialize (some ∅) = none ∧
    numberSetDeserialize none = ∅ ∧
    numberSetDeserialize (numberSetSerialize (some ∅)) = ∅ := by
  refine ⟨rfl, ?_, rfl, ?_, rfl, ?_, rfl, ?_⟩ <;>
    simp [stringSetSerialize, numberSetSerialize, stringSetDeserialize,
      numberSetDeserialize]

/-- C2 is false as stated: a `TTLAttribute` datetime with sub-second
precision does not round-trip, because `serialize` applies `int(...)` to
`timestamp()` and truncates to whole seconds.  At the aware datetime 0.5 s
after the epoch, deserializing the serialized form yields the epoch, which
is not equal to the original. -/
theorem c2_ttl_subsecond_counterexample :
    ttlSerialize 0 (some ⟨500000, some 0⟩) = some 0 ∧
    pyDatetimeEq (ttlDeserialize 0) ⟨500000, some 0⟩ = false := by
  decide

/-- C2 (amended): `deserialize (serialize v) == v` holds for `TTLAttribute`
on timezone-aware datetimes whose instant is a whole number of seconds, for
`EnumAttribute` on members whose value is a string, and for
`DatetimeAttribute` on timezone-aware datetimes.  (Sub-second TTL values
are truncated; naive datetimes come back as aware UTC; non-string enum
member values fail to deserialize.) -/
theorem c2_roundtrip_amended :
    (∀ (L : Int) (d : PyDatetime) (o : Int), d.utcOffSecs = some o →
      (d.wallMicros - o * 1000000) % 1000000 = 0 →
      ∀ n, ttlSerialize L (some d) = some n →
        pyDatetimeEq (ttlDeserialize n) d = true) ∧
    (∀ (cls : PyEnumDef) (s : String), PyPrim.pstr s ∈ cls.values →
      enumDeserialize cls (enumSerialize (some (PyPrim.pstr s))) =
        Except.ok (some (PyPrim.pstr s))) ∧
    (∀ d : PyDatetime, d.utcOffSecs.isSome = true →
      datetimeDeserialize (datetimeSerialize (some d)) = some d) := by
  refine ⟨?_, ?_, ?_⟩
  · intro L d o ho hmod n hn
    obtain ⟨w, off⟩ := d
    have ho2 : off = some o := ho
    subst ho2
    have hmod2 : (w - o * 1000000) % 1000000 = 0 := hmod
    have hdvd : (1000000 : Int) ∣ w - o * 1000000 :=
      Int.dvd_of_emod_eq_zero hmod2
    have hn2 : truncSecs (w - o * 1000000) = n := by
      have h3 : some (truncSecs (timestampMicros L ⟨w, some o⟩)) = some n := hn
      have hts : timestampMicros L (⟨w, some o⟩ : PyDatetime) =
          w - o * 1000000 := rfl
      rw [hts] at h3
      exact Option.some.inj h3
    have hmul : n * 1000000 = w - o * 1000000 := by
      rw [← hn2]
      exact truncSecs_mul_cancel hdvd
    simp [pyDatetimeEq, ttlDeserialize, hmul]
  · intro cls s hmem
    have hf := find?_beq_self (PyPrim.pstr s) cls.values hmem
    simp [enumDeserialize, enumSerialize, pyStr, hf]
  · intro d hd
    unfold datetimeDeserialize datetimeSerialize
    cases hoff : d.utcOffSecs with
    | none => rw [hoff] at hd; cases hd
    | some o => simp [hoff]

theorem c2_witness :
    ((⟨1000000, some 0⟩ : PyDatetime).utcOffSecs = some 0) ∧
    (((1000000 : Int) - 0 * 1000000) % 1000000 = 0) ∧
    (ttlSerialize 0 (some ⟨1000000, some 0⟩) = some 1) ∧
    pyDatetimeEq (ttlDeserialize 1) ⟨1000000, some 0⟩ = true ∧
    (PyPrim.pstr "active" ∈
      (⟨[PyPrim.pstr "pending", PyPrim.pstr "active"]⟩ : PyEnumDef).values) ∧
    enumDeserialize ⟨[PyPrim.pstr "pending", PyPrim.pstr "active"]⟩
        (enumSerialize (some (PyPrim.pstr "active"))) =
      Except.ok (some (PyPrim.pstr "active")) ∧
    ((⟨5, some 3600⟩ : PyDatetime).utcOffSecs.isSome = true) ∧
    datetimeDeserialize (datetimeSerialize (some ⟨5, some 3600⟩)) =
      some ⟨5, some 3600⟩ :=
  ⟨rfl, by decide, by decide,
   c2_roundtrip_amended.1 0 ⟨1000000, some 0⟩ 0 rfl (by decide) 1 (by decide),
   by decide,
   c2_roundtrip_amended.2.1 ⟨[PyPrim.pstr "pending", PyPrim.pstr "active"]⟩
     "active" (by decide),
   rfl,
   c2_roundtrip_amended.2.2 ⟨5, some 3600⟩ rfl⟩

/-- C10: `Model.__eq__` is decided only by key attributes: instances compare
equal exactly when the second is an instance of the first's class and their
key dicts (hash-key and range-key entries) agree; replacing non-key
attribute values — any attributes that leave the key-name lookups unchanged
— never changes the comparison. -/
theorem c10_model_eq_key_only {V : Type} [DecidableEq V] :
    (∀ a b : ModelInst V,
      modelEq a b = true ↔
        ((b.cls :: b.supers).contains a.cls = true ∧
          ∀ k, dictLookup (getKey a) k = dictLookup (getKey b) k)) ∧
    (∀ (a b : ModelInst V) (attrs2 : List (String × V)),
      (strTruthy a.hashKeyName = true →
        dictLookup attrs2 (a.hashKeyName.getD "") =
          dictLookup a.attrs (a.hashKeyName.getD "")) →
      (strTruthy a.rangeKeyName = true →
        dictLookup attrs2 (a.rangeKeyName.getD "") =
          dictLookup a.attrs (a.rangeKeyName.getD "")) →
      modelEq { a with attrs := attrs2 } b = modelEq a b) := by
  constructor
  · intro a b
    unfold modelEq
    rw [Bool.and_eq_true, pyDictEq_iff]
  · intro a b attrs2 h1 h2
    have hk : getKey { a with attrs := attrs2 } = getKey a := by
      unfold getKey
      cases hh : strTruthy a.hashKeyName <;> cases hr : strTruthy a.rangeKeyName <;>
        simp_all
    unfold modelEq
    rw [hk]

theorem c10_witness :
    (strTruthy (some "pk") = true →
      dictLookup [("pk", (1 : Nat)), ("sk", 2), ("name", 99)] "pk" =
        dictLookup [("pk", (1 : Nat)), ("sk", 2), ("name", 3)] "pk") ∧
    modelEq
        (⟨0, [], some "pk", some "sk",
          [("pk", (1 : Nat)), ("sk", 2), ("name", 99)]⟩ : ModelInst Nat)
        ⟨0, [], some "pk", some "sk", [("pk", 1), ("sk", 2), ("name", 3)]⟩ =
      modelEq
        (⟨0, [], some "pk", some "sk",
          [("pk", (1 : Nat)), ("sk", 2), ("name", 3)]⟩ : ModelInst Nat)
        ⟨0, [], some "pk", some "sk", [("pk", 1), ("sk", 2), ("name", 3)]⟩ :=
  ⟨fun _ => by decide,
   c10_model_eq_key_only.2
     ⟨0, [], some "pk", some "sk", [("pk", (1 : Nat)), ("sk", 2), ("name", 3)]⟩
     ⟨0, [], some "pk", some "sk", [("pk", 1), ("sk", 2), ("name", 3)]⟩
     [("pk", (1 : Nat)), ("sk", 2), ("name", 99)]
     (fun _ => by decide) (fun _ => by decide)⟩

/-! ### Pagination lemmas -/

theorem nextItem_buffered {Item : Type}
    (server : Option Nat → List Item × Option Nat) (s : QRState Item)
    (h : s.pageIndex < s.currentPage.length) :
    nextItem server s =
      (some s.currentPage[s.pageIndex], { s with pageIndex := s.pageIndex + 1 }) := by
  unfold nextItem
  rw [List.getElem?_eq_getElem h]

theorem nextItem_stop {Item : Type}
    (server : Option Nat → List Item × Option Nat) (s : QRState Item)
    (hidx : s.currentPage.length ≤ s.pageIndex) (hex : s.exhausted = true) :
    nextItem server s = (none, s) := by
  unfold nextItem
  rw [List.getElem?_eq_none hidx, hex]
  rfl

theorem runQR_stop {Item : Type}
    (server : Option Nat → List Item × Option Nat) (s : QRState Item)
    (hidx : s.currentPage.length ≤ s.pageIndex) (hex : s.exhausted = true) :
    ∀ fuel, runQR server fuel s = ([], s) := by
  intro fuel
  cases fuel with
  | zero => rfl
  | succ n =>
    show (match nextItem server s with
      | (none, t) => ([], t)
      | (some it, t) =>
        ((it :: (runQR server n t).1, (runQR server n t).2) :
          List Item × QRState Item)) = ([], s)
    rw [nextItem_stop server s hidx hex]

theorem runQR_succ_of_some {Item : Type}
    (server : Option Nat → List Item × Option Nat) (fuel : Nat)
    (s t : QRState Item) (it : Item)
    (h : nextItem server s = (some it, t)) :
    runQR server (fuel + 1) s =
      (it :: (runQR server fuel t).1, (runQR server fuel t).2) := by
  show (match nextItem server s with
    | (none, u) => ([], u)
    | (some it, u) =>
      ((it :: (runQR server fuel u).1, (runQR server fuel u).2) :
        List Item × QRState Item)) = _
  rw [h]

theorem runQR_succ_of_none {Item : Type}
    (server : Option Nat → List Item × Option Nat) (fuel : Nat)
    (s t : QRState Item)
    (h : nextItem server s = (none, t)) :
    runQR server (fuel + 1) s = ([], t) := by
  show (match nextItem server s with
    | (none, u) => ([], u)
    | (some it, u) =>
      ((it :: (runQR server fuel u).1, (runQR server fuel u).2) :
        List Item × QRState Item)) = _
  rw [h]

theorem runQR_consume {Item : Type}
    (server : Option Nat → List Item × Option Nat) :
    ∀ (d : Nat) (s : QRState Item) (extra : Nat),
      s.pageIndex + d = s.currentPage.length →
      runQR server (d + extra) s =
        (s.currentPage.drop s.pageIndex ++
           (runQR server extra { s with pageIndex := s.currentPage.length }).1,
         (runQR server extra { s with pageIndex := s.currentPage.length }).2) := by
  intro d
  induction d with
  | zero =>
    intro s extra h
    have hidx : s.pageIndex = s.currentPage.length := by omega
    have hs : { s with pageIndex := s.currentPage.length } = s := by
      cases s
      simp_all
    rw [Nat.zero_add, hs, hidx, List.drop_length, List.nil_append]
  | succ d ih =>
    intro s extra h
    have hlt : s.pageIndex < s.currentPage.length := by omega
    have hstep : nextItem server s =
        (some s.currentPage[s.pageIndex], { s with pageIndex := s.pageIndex + 1 }) :=
      nextItem_buffered server s hlt
    have harith : d + 1 + extra = (d + extra) + 1 := by omega
    rw [harith, runQR_succ_of_some server (d + extra) s _ _ hstep]
    have hrec := ih { s with pageIndex := s.pageIndex + 1 } extra (by simp; omega)
    simp only at hrec
    rw [hrec]
    rw [List.drop_eq_getElem_cons hlt]
    rfl

theorem getD_of_drop_cons {Item : Type} {pages : List (List Item)} {k : Nat}
    {q : List Item} {qs : List (List Item)} (h : pages.drop k = q :: qs) :
    pages.getD k [] = q := by
  have h1 : pages[k]? = some q := by
    rw [← List.head?_drop, h]
    rfl
  rw [List.getD_eq_getElem?_getD, h1]
  rfl

theorem drop_succ_of_drop_cons {Item : Type} {pages : List (List Item)} {k : Nat}
    {q : List Item} {qs : List (List Item)} (h : pages.drop k = q :: qs) :
    pages.drop (k + 1) = qs := by
  rw [← List.tail_drop, h]
  rfl

theorem getD_of_len_le {Item : Type} {pages : List (List Item)} {k : Nat}
    (h : pages.length ≤ k) : pages.getD k [] = [] := by
  rw [List.getD_eq_getElem?_getD, List.getElem?_eq_none h]
  rfl

theorem segFlatten_eq {Item : Type} (pages : List (List Item)) :
    ∀ (m k : Nat), segFlatten pages k m = ((pages.drop k).take m).flatten := by
  intro m
  induction m with
  | zero => intro k; rfl
  | succ m ih =>
    intro k
    show pages.getD k [] ++ segFlatten pages (k + 1) m = _
    rw [ih (k + 1)]
    cases hdk : pages.drop k with
    | nil =>
      have hlen : pages.length ≤ k := List.drop_eq_nil_iff.mp hdk
      rw [getD_of_len_le hlen, List.drop_eq_nil_of_le (Nat.le_succ_of_le hlen)]
      simp
    | cons q qs =>
      rw [getD_of_drop_cons hdk, drop_succ_of_drop_cons hdk]
      rfl

theorem segFlatten_add {Item : Type} (pages : List (List Item)) :
    ∀ (m1 m2 k : Nat),
      segFlatten pages k (m1 + m2) =
        segFlatten pages k m1 ++ segFlatten pages (k + m1) m2 := by
  intro m1
  induction m1 with
  | zero =>
    intro m2 k
    rw [Nat.zero_add]
    rfl
  | succ m1 ih =>
    intro m2 k
    have h1 : m1 + 1 + m2 = (m1 + m2) + 1 := by omega
    rw [h1]
    show pages.getD k [] ++ segFlatten pages (k + 1) (m1 + m2) = _
    rw [ih m2 (k + 1)]
    show _ = (pages.getD k [] ++ segFlatten pages (k + 1) m1) ++ _
    rw [List.append_assoc]
    have h2 : k + 1 + m1 = k + (m1 + 1) := by omega
    rw [h2]

theorem segFlatten_all {Item : Type} (pages : List (List Item)) :
    segFlatten pages 0 pages.length = pages.flatten := by
  rw [segFlatten_eq]
  show ((pages.drop 0).take pages.length).flatten = _
  rw [List.drop_zero]
  congr 1
  exact List.take_length pages

theorem segFlatten_take {Item : Type} (pages : List (List Item)) (k : Nat) :
    segFlatten pages 0 k = (pages.take k).flatten := by
  rw [segFlatten_eq]
  rw [List.drop_zero]

theorem segFlatten_drop {Item : Type} (pages : List (List Item)) (k : Nat) :
    segFlatten pages k (pages.length - k) = (pages.drop k).flatten := by
  rw [segFlatten_eq]
  congr 1
  apply List.take_of_length_le
  simp

theorem fetchNextPage_init {Item : Type} (pages : List (List Item))
    (start : Option Nat) :
    fetchNextPage (pagesServer pages) (initQR start) =
      pageState pages start (keyIdx start) 0 := by
  by_cases h2 : keyIdx start + 1 < pages.length <;>
    simp [fetchNextPage, initQR, pagesServer, pageState, h2]

theorem fetchNextPage_mid {Item : Type} (pages : List (List Item))
    (start : Option Nat) (k i : Nat) (hk1 : k + 1 < pages.length) :
    fetchNextPage (pagesServer pages) (pageState pages start k i) =
      pageState pages start (k + 1) 0 := by
  by_cases h2 : k + 1 + 1 < pages.length <;>
    simp [fetchNextPage, pagesServer, pageState, keyIdx, hk1, h2]

theorem nextItem_boundary {Item : Type} (pages : List (List Item))
    (start : Option Nat) (k : Nat) (hk1 : k + 1 < pages.length)
    (a : Item) (l : List Item) (hcons : pages.getD (k + 1) [] = a :: l) :
    nextItem (pagesServer pages)
        (pageState pages start k ((pages.getD k []).length)) =
      (some a, pageState pages start (k + 1) 1) := by
  unfold nextItem
  have hnone : ((pageState pages start k
      ((pages.getD k []).length) : QRState Item).currentPage)[
        (pageState pages start k ((pages.getD k []).length) :
          QRState Item).pageIndex]? = none :=
    List.getElem?_eq_none (le_refl _)
  rw [hnone]
  have hex : (pageState pages start k ((pages.getD k []).length) :
      QRState Item).exhausted = false := by
    simp [pageState, hk1]
  rw [hex]
  rw [if_neg (by simp)]
  rw [fetchNextPage_mid pages start k _ hk1]
  have hcons2 : pages[k + 1]?.getD [] = a :: l := by
    rw [← List.getD_eq_getElem?_getD]
    exact hcons
  simp [pageState, hcons, hcons2]

theorem nextItem_init_cons {Item : Type} (pages : List (List Item))
    (start : Option Nat) (a : Item) (l : List Item)
    (hcons : pages.getD (keyIdx start) [] = a :: l) :
    nextItem (pagesServer pages) (initQR start) =
      (some a, pageState pages start (keyIdx start) 1) := by
  unfold nextItem
  have hnone : ((initQR start : QRState Item).currentPage)[
      (initQR start : QRState Item).pageIndex]? = none := rfl
  rw [hnone]
  rw [if_neg (by simp [initQR])]
  rw [fetchNextPage_init pages start]
  have hcons2 : pages[keyIdx start]?.getD [] = a :: l := by
    rw [← List.getD_eq_getElem?_getD]
    exact hcons
  simp [pageState, hcons, hcons2]

theorem runQR_seg {Item : Type} (pages : List (List Item))
    (hne : ∀ p ∈ pages, p ≠ []) :
    ∀ (m k i extra : Nat) (start : Option Nat),
      k + m < pages.length → i ≤ (pages.getD k []).length →
      runQR (pagesServer pages)
          ((((pages.getD k []).length - i) +
            (segFlatten pages (k + 1) m).length) + extra)
          (pageState pages start k i) =
        (((pages.getD k []).drop i ++ segFlatten pages (k + 1) m) ++
           (runQR (pagesServer pages) extra
             (pageState pages start (k + m) ((pages.getD (k + m) []).length))).1,
         (runQR (pagesServer pages) extra
           (pageState pages start (k + m) ((pages.getD (k + m) []).length))).2) := by
  intro m
  induction m with
  | zero =>
    intro k i extra start hk hi
    have hupd : { pageState pages start k i with
        pageIndex := (pageState pages start k i : QRState Item).currentPage.length } =
        pageState pages start k ((pages.getD k []).length) := rfl
    have hrun1 := runQR_consume (pagesServer pages) ((pages.getD k []).length - i)
      (pageState pages start k i) extra
      (by show i + ((pages.getD k []).length - i) = (pages.getD k []).length; omega)
    rw [hupd] at hrun1
    simp only [segFlatten, List.length_nil, Nat.add_zero, List.append_nil]
    exact hrun1
  | succ m ih =>
    intro k i extra start hk hi
    have hk1 : k + 1 < pages.length := by omega
    have hmem : pages.getD (k + 1) [] ∈ pages := by
      rw [List.getD_eq_getElem pages [] hk1]
      exact List.getElem_mem hk1
    have hne1 : pages.getD (k + 1) [] ≠ [] := hne _ hmem
    obtain ⟨a, l, hcons⟩ : ∃ a l, pages.getD (k + 1) [] = a :: l := by
      cases hh : pages.getD (k + 1) [] with
      | nil => exact absurd hh hne1
      | cons a l => exact ⟨a, l, rfl⟩
    have hlen1 : (pages.getD (k + 1) []).length = l.length + 1 := by
      rw [hcons]
      rfl
    have hupd : { pageState pages start k i with
        pageIndex := (pageState pages start k i : QRState Item).currentPage.length } =
        pageState pages start k ((pages.getD k []).length) := rfl
    have hrun1 := runQR_consume (pagesServer pages) ((pages.getD k []).length - i)
      (pageState pages start k i) ((segFlatten pages (k + 1) (m + 1)).length + extra)
      (by show i + ((pages.getD k []).length - i) = (pages.getD k []).length; omega)
    rw [hupd] at hrun1
    have hnext := nextItem_boundary pages start k hk1 a l hcons
    have hseg : segFlatten pages (k + 1) (m + 1) =
        pages.getD (k + 1) [] ++ segFlatten pages (k + 2) m := rfl
    have hsegadd : (segFlatten pages (k + 1) (m + 1)).length + extra
        = ((l.length + (segFlatten pages (k + 2) m).length) + extra) + 1 := by
      rw [hseg, List.length_append, hlen1]
      omega
    have hrun2 := runQR_succ_of_some (pagesServer pages)
      ((l.length + (segFlatten pages (k + 2) m).length) + extra) _ _ _ hnext
    have hih := ih (k + 1) 1 extra start (by omega) (by omega)
    have hihfuel : (pages.getD (k + 1) []).length - 1 = l.length := by omega
    rw [hihfuel] at hih
    have harr : k + 1 + m = k + (m + 1) := by omega
    rw [harr] at hih
    have hfuel : (((pages.getD k []).length - i) +
        (segFlatten pages (k + 1) (m + 1)).length) + extra =
        ((pages.getD k []).length - i) +
          ((segFlatten pages (k + 1) (m + 1)).length + extra) := by omega
    rw [hfuel, hrun1, hsegadd, hrun2, hih]
    have hcons2 : pages[k + 1]?.getD [] = a :: l := by
      rw [← List.getD_eq_getElem?_getD]
      exact hcons
    simp [pageState, hcons, hcons2, hseg, List.append_assoc]

theorem runQR_from_key {Item : Type} (pages : List (List Item))
    (hne : ∀ p ∈ pages, p ≠ []) (start : Option Nat)
    (hz : keyIdx start < pages.length) :
    runQR (pagesServer pages) ((pages.drop (keyIdx start)).flatten.length + 1)
        (initQR start) =
      ((pages.drop (keyIdx start)).flatten,
       pageState pages start (pages.length - 1)
         ((pages.getD (pages.length - 1) []).length)) := by
  have hmem : pages.getD (keyIdx start) [] ∈ pages := by
    rw [List.getD_eq_getElem pages [] hz]
    exact List.getElem_mem hz
  obtain ⟨a, l, hcons⟩ : ∃ a l, pages.getD (keyIdx start) [] = a :: l := by
    cases hh : pages.getD (keyIdx start) [] with
    | nil => exact absurd hh (hne _ hmem)
    | cons a l => exact ⟨a, l, rfl⟩
  have hinit := nextItem_init_cons pages start a l hcons
  have hseg := runQR_seg pages hne (pages.length - 1 - keyIdx start)
    (keyIdx start) 1 1 start (by omega) (by rw [hcons]; simp)
  have hm : keyIdx start + (pages.length - 1 - keyIdx start) = pages.length - 1 := by
    omega
  rw [hm] at hseg
  have hstop := runQR_stop (pagesServer pages)
    (pageState pages start (pages.length - 1)
      ((pages.getD (pages.length - 1) []).length))
    (le_refl _) (by simp [pageState]; omega) 1
  rw [hstop] at hseg
  have hsplit : (pages.drop (keyIdx start)).flatten =
      pages.getD (keyIdx start) [] ++
        segFlatten pages (keyIdx start + 1) (pages.length - 1 - keyIdx start) := by
    rw [← segFlatten_drop pages (keyIdx start)]
    have h1 : pages.length - keyIdx start = 1 + (pages.length - 1 - keyIdx start) := by
      omega
    rw [h1, segFlatten_add pages 1 (pages.length - 1 - keyIdx start) (keyIdx start)]
    congr 1
    show pages.getD (keyIdx start) [] ++ [] = _
    rw [List.append_nil]
  have hlen1 : (pages.getD (keyIdx start) []).length = l.length + 1 := by
    rw [hcons]
    rfl
  have hfuel : (pages.drop (keyIdx start)).flatten.length + 1 =
      ((((pages.getD (keyIdx start) []).length - 1) +
        (segFlatten pages (keyIdx start + 1)
          (pages.length - 1 - keyIdx start)).length) + 1) + 1 := by
    rw [hsplit, List.length_append]
    omega
  rw [hfuel, runQR_succ_of_some (pagesServer pages) _ _ _ _ hinit, hseg]
  rw [hsplit, hcons]
  simp [List.append_assoc]

theorem runQR_partial {Item : Type} (pages : List (List Item))
    (hne : ∀ p ∈ pages, p ≠ []) (k : Nat) (hk0 : 0 < k)
    (hkP : k < pages.length) :
    runQR (pagesServer pages) ((pages.take k).flatten.length) (initQR none) =
      ((pages.take k).flatten,
       pageState pages none (k - 1) ((pages.getD (k - 1) []).length)) := by
  have h0 : (0 : Nat) < pages.length := by omega
  have hmem : pages.getD 0 [] ∈ pages := by
    rw [List.getD_eq_getElem pages [] h0]
    exact List.getElem_mem h0
  obtain ⟨a, l, hcons⟩ : ∃ a l, pages.getD 0 [] = a :: l := by
    cases hh : pages.getD 0 [] with
    | nil => exact absurd hh (hne _ hmem)
    | cons a l => exact ⟨a, l, rfl⟩
  have hinit := nextItem_init_cons pages none a l hcons
  have hseg := runQR_seg pages hne (k - 1) 0 1 0 none (by omega) (by rw [hcons]; simp)
  have hm : 0 + (k - 1) = k - 1 := by omega
  rw [hm] at hseg
  have hsplit : (pages.take k).flatten =
      pages.getD 0 [] ++ segFlatten pages 1 (k - 1) := by
    rw [← segFlatten_take pages k]
    have h1 : k = 1 + (k - 1) := by omega
    conv_lhs => rw [h1]
    rw [segFlatten_add pages 1 (k - 1) 0]
    congr 1
    show pages.getD 0 [] ++ [] = _
    rw [List.append_nil]
  have hlen1 : (pages.getD 0 []).length = l.length + 1 := by
    rw [hcons]
    rfl
  have hfuel : (pages.take k).flatten.length =
      ((((pages.getD 0 []).length - 1) +
        (segFlatten pages 1 (k - 1)).length) + 0) + 1 := by
    rw [hsplit, List.length_append]
    omega
  rw [hfuel, runQR_succ_of_some (pagesServer pages) _ _ _ _ hinit]
  simp only [keyIdx]
  simp only [Nat.zero_add, Nat.add_zero] at hseg
  rw [hseg]
  rw [hsplit, hcons]
  simp [List.append_assoc, runQR]

theorem drop_flatten_cons {Item : Type} (pages : List (List Item)) (z : Nat)
    (hz : z < pages.length) :
    (pages.drop z).flatten = pages.getD z [] ++ (pages.drop (z + 1)).flatten := by
  rw [List.drop_eq_getElem_cons hz, List.flatten_cons,
    List.getD_eq_getElem pages [] hz]

theorem decide_le_eq_not_decide_lt (a b : Nat) :
    decide (b ≤ a) = !decide (a < b) := by
  by_cases h : a < b
  · simp [h, Nat.not_le.mpr h]
  · simp [h, Nat.le_of_not_lt h]

theorem pendKey_not_first {Item : Type} (s : QRState Item)
    (h : s.firstFetch = false) : pendKey s = s.lastEvaluatedKey := by
  simp [pendKey, h]

theorem fetchNextPage_general {Item : Type} (pages : List (List Item))
    (s : QRState Item)
    (hskip : (!s.firstFetch && s.lastEvaluatedKey.isNone) = false) :
    fetchNextPage (pagesServer pages) s =
      { s with
        firstFetch := false
        currentPage := pages.getD (keyIdx (pendKey s)) []
        pageIndex := 0
        lastEvaluatedKey :=
          if keyIdx (pendKey s) + 1 < pages.length then
            some (keyIdx (pendKey s) + 1)
          else none
        exhausted :=
          if keyIdx (pendKey s) + 1 < pages.length then s.exhausted else true } := by
  by_cases hz : keyIdx (pendKey s) + 1 < pages.length <;>
    simp [fetchNextPage, pendKey, pagesServer, hskip, hz] <;>
    rw [decide_le_eq_not_decide_lt]

theorem runQR_length_le {Item : Type} (pages : List (List Item)) :
    ∀ (fuel : Nat) (s : QRState Item),
      ((runQR (pagesServer pages) fuel s).1).length ≤ qBound pages s := by
  intro fuel
  induction fuel with
  | zero =>
    intro s
    exact Nat.zero_le _
  | succ fuel ih =>
    intro s
    by_cases hbuf : s.pageIndex < s.currentPage.length
    · rw [runQR_succ_of_some (pagesServer pages) fuel _ _ _
        (nextItem_buffered _ s hbuf)]
      have h1 := ih { s with pageIndex := s.pageIndex + 1 }
      have h2 : qBound pages { s with pageIndex := s.pageIndex + 1 } + 1 =
          qBound pages s := by
        simp only [qBound, pendKey]
        have harith : ∀ X : Nat,
            (s.currentPage.length - (s.pageIndex + 1)) + X + 1 =
              (s.currentPage.length - s.pageIndex) + X := by
          intro X
          omega
        exact harith _
      simp only [List.length_cons]
      omega
    · have hidx : s.currentPage.length ≤ s.pageIndex := Nat.le_of_not_lt hbuf
      by_cases hex : s.exhausted = true
      · rw [runQR_stop (pagesServer pages) s hidx hex]
        exact Nat.zero_le _
      · have hexf : s.exhausted = false := by
          revert hex
          cases s.exhausted <;> simp
        by_cases hskip : (!s.firstFetch && s.lastEvaluatedKey.isNone) = true
        · have hfetch : fetchNextPage (pagesServer pages) s =
              { s with exhausted := true } := by
            simp [fetchNextPage, hskip]
          have hnext : nextItem (pagesServer pages) s =
              (none, { s with exhausted := true }) := by
            unfold nextItem
            rw [List.getElem?_eq_none hidx]
            simp only [hexf, hfetch]
            by_cases hemp : s.currentPage.isEmpty <;>
              simp [hemp, List.getElem?_eq_none hidx]
          rw [runQR_succ_of_none _ fuel _ _ hnext]
          exact Nat.zero_le _
        · have hskipf : (!s.firstFetch && s.lastEvaluatedKey.isNone) = false := by
            revert hskip
            cases (!s.firstFetch && s.lastEvaluatedKey.isNone) <;> simp
          have hfetch := fetchNextPage_general pages s hskipf
          cases hpage : pages.getD (keyIdx (pendKey s)) [] with
          | nil =>
            have hpage2 : pages[keyIdx (pendKey s)]?.getD [] = [] := by
              rw [← List.getD_eq_getElem?_getD]
              exact hpage
            have hnext : nextItem (pagesServer pages) s =
                (none, fetchNextPage (pagesServer pages) s) := by
              unfold nextItem
              rw [List.getElem?_eq_none hidx]
              simp only [hexf, hfetch]
              simp [hpage, hpage2]
            rw [runQR_succ_of_none _ fuel _ _ hnext]
            exact Nat.zero_le _
          | cons a l =>
            have hpage2 : pages[keyIdx (pendKey s)]?.getD [] = a :: l := by
              rw [← List.getD_eq_getElem?_getD]
              exact hpage
            have hzlt : keyIdx (pendKey s) < pages.length := by
              by_contra hge
              rw [getD_of_len_le (Nat.le_of_not_lt hge)] at hpage
              cases hpage
            have hnext : nextItem (pagesServer pages) s =
                (some a,
                 { startKey := s.startKey
                   currentPage := pages.getD (keyIdx (pendKey s)) []
                   pageIndex := 1
                   lastEvaluatedKey :=
                     if keyIdx (pendKey s) + 1 < pages.length then
                       some (keyIdx (pendKey s) + 1)
                     else none
                   exhausted :=
                     if keyIdx (pendKey s) + 1 < pages.length then s.exhausted
                     else true
                   firstFetch := false }) := by
              unfold nextItem
              rw [List.getElem?_eq_none hidx]
              simp only [hexf, hfetch]
              simp [hpage, hpage2]
            rw [runQR_succ_of_some _ fuel _ _ _ hnext]
            have h1 := ih
              { startKey := s.startKey
                currentPage := pages.getD (keyIdx (pendKey s)) []
                pageIndex := 1
                lastEvaluatedKey :=
                  if keyIdx (pendKey s) + 1 < pages.length then
                    some (keyIdx (pendKey s) + 1)
                  else none
                exhausted :=
                  if keyIdx (pendKey s) + 1 < pages.length then s.exhausted
                  else true
                firstFetch := false }
            have hdropz : ((pages.drop (keyIdx (pendKey s))).flatten).length =
                (l.length + 1) +
                  ((pages.drop (keyIdx (pendKey s) + 1)).flatten).length := by
              rw [drop_flatten_cons pages _ hzlt, hpage, List.length_append]
              simp
            have hqs : qBound pages s =
                (s.currentPage.length - s.pageIndex) +
                  ((pages.drop (keyIdx (pendKey s))).flatten).length := by
              simp [qBound, hexf]
            by_cases hz1 : keyIdx (pendKey s) + 1 < pages.length
            · have hqt : qBound pages
                  { startKey := s.startKey
                    currentPage := pages.getD (keyIdx (pendKey s)) []
                    pageIndex := 1
                    lastEvaluatedKey :=
                      if keyIdx (pendKey s) + 1 < pages.length then
                        some (keyIdx (pendKey s) + 1)
                      else none
                    exhausted :=
                      if keyIdx (pendKey s) + 1 < pages.length then s.exhausted
                      else true
                    firstFetch := false } =
                  l.length +
                    ((pages.drop (keyIdx (pendKey s) + 1)).flatten).length := by
                unfold qBound
                rw [pendKey_not_first
                  { startKey := s.startKey
                    currentPage := pages.getD (keyIdx (pendKey s)) []
                    pageIndex := 1
                    lastEvaluatedKey :=
                      if keyIdx (pendKey s) + 1 < pages.length then
                        some (keyIdx (pendKey s) + 1)
                      else none
                    exhausted :=
                      if keyIdx (pendKey s) + 1 < pages.length then s.exhausted
                      else true
                    firstFetch := false } rfl]
                dsimp only
                rw [if_pos hz1, if_pos hz1, hexf, hpage]
                dsimp only [keyIdx]
                simp
              simp only [List.length_cons]
              omega
            · have hqt : qBound pages
                  { startKey := s.startKey
                    currentPage := pages.getD (keyIdx (pendKey s)) []
                    pageIndex := 1
                    lastEvaluatedKey :=
                      if keyIdx (pendKey s) + 1 < pages.length then
                        some (keyIdx (pendKey s) + 1)
                      else none
                    exhausted :=
                      if keyIdx (pendKey s) + 1 < pages.length then s.exhausted
                      else true
                    firstFetch := false } = l.length := by
                unfold qBound
                rw [pendKey_not_first
                  { startKey := s.startKey
                    currentPage := pages.getD (keyIdx (pendKey s)) []
                    pageIndex := 1
                    lastEvaluatedKey :=
                      if keyIdx (pendKey s) + 1 < pages.length then
                        some (keyIdx (pendKey s) + 1)
                      else none
                    exhausted :=
                      if keyIdx (pendKey s) + 1 < pages.length then s.exhausted
                      else true
                    firstFetch := false } rfl]
                dsimp only
                rw [if_neg hz1, hpage]
                simp
              simp only [List.length_cons]
              omega

/-- C1 is false as stated in its `last_evaluated_key` clause: against a
single-page server holding two items, `last_evaluated_key` is already null
right after the first, non-final, item is yielded — the cursor goes null as
soon as the final page is fetched, not after the final item. -/
theorem c1_lek_counterexample :
    (nextItem (pagesServer [[10, 20]]) (initQR none)).1 = some 10 ∧
    ((nextItem (pagesServer [[10, 20]]) (initQR none)).2).lastEvaluatedKey =
      none ∧
    (nextItem (pagesServer [[10, 20]])
      ((nextItem (pagesServer [[10, 20]]) (initQR none)).2)).1 = some 20 := by
  decide

/-- C1 (amended): for a query whose server-side pages are all non-empty and
together contain N items, iteration yields exactly those N items in server
order, each buffered item is yielded without an extra fetch, and after
iteration ends `last_evaluated_key` is null — it becomes null when the
final page is fetched, which can be before the final item is yielded. -/
theorem c1_pagination_completeness {Item : Type} (pages : List (List Item))
    (hne : ∀ p ∈ pages, p ≠ []) :
    ((runQR (pagesServer pages) (pages.flatten.length + 1) (initQR none)).1 =
        pages.flatten ∧
      (runQR (pagesServer pages) (pages.flatten.length + 1)
        (initQR none)).2.lastEvaluatedKey = none) ∧
    (∀ (server : Option Nat → List Item × Option Nat) (s : QRState Item)
       (h : s.pageIndex < s.currentPage.length),
      nextItem server s =
        (some s.currentPage[s.pageIndex],
         { s with pageIndex := s.pageIndex + 1 })) := by
  constructor
  · cases pages with
    | nil => exact ⟨rfl, rfl⟩
    | cons p0 rest =>
      have h := runQR_from_key (p0 :: rest) hne none (by simp [keyIdx])
      have h2 : ((p0 :: rest).drop (keyIdx none)).flatten = (p0 :: rest).flatten :=
        rfl
      rw [h2] at h
      rw [h]
      refine ⟨rfl, ?_⟩
      show (if ((p0 :: rest).length - 1) + 1 < (p0 :: rest).length then
          some (((p0 :: rest).length - 1) + 1) else none) = none
      rw [if_neg (by simp)]
  · intro server s h
    exact nextItem_buffered server s h

/-- C3 is false as stated: capturing `last_evaluated_key` mid-page loses
the still-buffered items.  Over pages `[[1, 2], [3]]`, yielding one item and
resuming a fresh result from the captured cursor produces `[3]`, while the
items not yet yielded were `[2, 3]`. -/
theorem c3_midpage_counterexample :
    (runQR (pagesServer [[1, 2], [3]]) 9 (initQR none)).1 = [1, 2, 3] ∧
    (nextItem (pagesServer [[1, 2], [3]]) (initQR none)).1 = some 1 ∧
    ((nextItem (pagesServer [[1, 2], [3]]) (initQR none)).2).lastEvaluatedKey =
      some 1 ∧
    (runQR (pagesServer [[1, 2], [3]]) 9 (initQR (some 1))).1 = [3] ∧
    ([3] : List Nat) ≠ [2, 3] := by
  decide

/-- C3 (amended): when the original iteration is stopped at a page
boundary — after consuming exactly the items of the first `k` pages — the
captured `last_evaluated_key` is `some k`, and a fresh `QueryResult` seeded
with it yields exactly the remaining items, with no duplicates or
omissions; the fresh result's first fetch uses the supplied start key and
every later fetch uses the cursor recorded from the previous page.
(Capturing mid-page instead omits the unconsumed tail of the current page;
see the counterexample.) -/
theorem c3_pagination_resumption {Item : Type} (pages : List (List Item))
    (hne : ∀ p ∈ pages, p ≠ []) (k : Nat) (hk0 : 0 < k)
    (hkP : k < pages.length) :
    ((runQR (pagesServer pages) ((pages.take k).flatten.length)
        (initQR none)).1 = (pages.take k).flatten ∧
      (runQR (pagesServer pages) ((pages.take k).flatten.length)
        (initQR none)).2.lastEvaluatedKey = some k) ∧
    (runQR (pagesServer pages) ((pages.drop k).flatten.length + 1)
        (initQR (some k))).1 = (pages.drop k).flatten ∧
    (pages.take k).flatten ++ (pages.drop k).flatten = pages.flatten ∧
    (∀ (server : Option Nat → List Item × Option Nat) (s : QRState Item),
      s.firstFetch = true →
      (fetchNextPage server s).currentPage = (server s.startKey).1 ∧
      (fetchNextPage server s).lastEvaluatedKey = (server s.startKey).2) ∧
    (∀ (server : Option Nat → List Item × Option Nat) (s : QRState Item),
      s.firstFetch = false → s.lastEvaluatedKey.isSome = true →
      (fetchNextPage server s).currentPage =
        (server s.lastEvaluatedKey).1 ∧
      (fetchNextPage server s).lastEvaluatedKey =
        (server s.lastEvaluatedKey).2) := by
  refine ⟨?_, ?_, ?_, ?_, ?_⟩
  · have h := runQR_partial pages hne k hk0 hkP
    rw [h]
    refine ⟨rfl, ?_⟩
    have hkk : k - 1 + 1 = k := by omega
    show (if (k - 1) + 1 < pages.length then some ((k - 1) + 1) else none) =
      some k
    rw [hkk, if_pos hkP]
  · have h := runQR_from_key pages hne (some k) hkP
    have hdk : pages.drop (keyIdx (some k)) = pages.drop k := rfl
    rw [hdk] at h
    rw [h]
  · rw [← List.flatten_append, List.take_append_drop]
  · intro server s h
    constructor <;> simp [fetchNextPage, h]
  · intro server s h1 h2
    obtain ⟨c, hc⟩ := Option.isSome_iff_exists.mp h2
    constructor <;> simp [fetchNextPage, h1, hc]

/-- C7: iteration of a `QueryResult` always terminates: a fetched empty
page ends the sequence immediately, even when the store returned a non-null
cursor with it; once the exhausted flag is set and the buffer is consumed,
`__next__` stops without fetching and without changing the state; and
against a store holding finitely many pages the produced item sequence is
finite — never longer than the total item count — whatever the iteration
budget. -/
theorem c7_termination {Item : Type} :
    (∀ (server : Option Nat → List Item × Option Nat) (s : QRState Item),
      s.currentPage.length ≤ s.pageIndex → s.exhausted = false →
      (server (pendKey s)).1 = [] → (nextItem server s).1 = none) ∧
    (∀ (server : Option Nat → List Item × Option Nat) (s : QRState Item),
      s.currentPage.length ≤ s.pageIndex → s.exhausted = true →
      nextItem server s = (none, s)) ∧
    (∀ (pages : List (List Item)) (start : Option Nat) (fuel : Nat),
      ((runQR (pagesServer pages) fuel (initQR start)).1).length ≤
        pages.flatten.length) := by
  refine ⟨?_, ?_, ?_⟩
  · intro server s hidx hexf hpage
    unfold nextItem
    rw [List.getElem?_eq_none hidx]
    by_cases hskip : (!s.firstFetch && s.lastEvaluatedKey.isNone) = true
    · have hfetch : fetchNextPage server s = { s with exhausted := true } := by
        simp [fetchNextPage, hskip]
      simp only [hexf, hfetch]
      by_cases hemp : s.currentPage.isEmpty <;>
        simp [hemp, List.getElem?_eq_none hidx]
    · have hskipf : (!s.firstFetch && s.lastEvaluatedKey.isNone) = false := by
        revert hskip
        cases (!s.firstFetch && s.lastEvaluatedKey.isNone) <;> simp
      have hsrv : (server (if s.firstFetch = true then s.startKey
          else s.lastEvaluatedKey)).1 = [] := hpage
      have hfetch : (fetchNextPage server s).currentPage = [] := by
        simp [fetchNextPage, hskipf, hsrv]
      simp [hexf, hfetch]
  · intro server s hidx hex
    exact nextItem_stop server s hidx hex
  · intro pages start fuel
    have hb := runQR_length_le pages fuel (initQR start)
    have hq : qBound pages (initQR start) =
        ((pages.drop (keyIdx start)).flatten).length := by
      simp [qBound, initQR, pendKey]
    have hsplit : ((pages.take (keyIdx start)).flatten).length +
        ((pages.drop (keyIdx start)).flatten).length = pages.flatten.length := by
      rw [← List.length_append, ← List.flatten_append, List.take_append_drop]
    omega

theorem c1_witness :
    (∀ p ∈ ([[10], [20, 30]] : List (List Nat)), p ≠ []) ∧
    (runQR (pagesServer [[10], [20, 30]])
        (([[10], [20, 30]] : List (List Nat)).flatten.length + 1)
        (initQR none)).1 = ([[10], [20, 30]] : List (List Nat)).flatten ∧
    (runQR (pagesServer [[10], [20, 30]])
        (([[10], [20, 30]] : List (List Nat)).flatten.length + 1)
        (initQR none)).2.lastEvaluatedKey = none :=
  ⟨by decide,
   ((c1_pagination_completeness [[10], [20, 30]] (by decide)).1).1,
   ((c1_pagination_completeness [[10], [20, 30]] (by decide)).1).2⟩

theorem c3_witness :
    (∀ p ∈ ([[1], [2], [3]] : List (List Nat)), p ≠ []) ∧
    (0 : Nat) < 1 ∧ 1 < ([[1], [2], [3]] : List (List Nat)).length ∧
    (runQR (pagesServer [[1], [2], [3]])
        ((([[1], [2], [3]] : List (List Nat)).take 1).flatten.length)
        (initQR none)).1 = (([[1], [2], [3]] : List (List Nat)).take 1).flatten ∧
    (runQR (pagesServer [[1], [2], [3]])
        ((([[1], [2], [3]] : List (List Nat)).take 1).flatten.length)
        (initQR none)).2.lastEvaluatedKey = some 1 ∧
    (runQR (pagesServer [[1], [2], [3]])
        ((([[1], [2], [3]] : List (List Nat)).drop 1).flatten.length + 1)
        (initQR (some 1))).1 =
      (([[1], [2], [3]] : List (List Nat)).drop 1).flatten :=
  ⟨by decide, by decide, by decide,
   ((c3_pagination_resumption [[1], [2], [3]] (by decide) 1 (by decide)
      (by decide)).1).1,
   ((c3_pagination_resumption [[1], [2], [3]] (by decide) 1 (by decide)
      (by decide)).1).2,
   (c3_pagination_resumption [[1], [2], [3]] (by decide) 1 (by decide)
      (by decide)).2.1⟩

theorem c7_witness :
    ((initQR none : QRState Nat).currentPage.length ≤
      (initQR none : QRState Nat).pageIndex) ∧
    ((initQR none : QRState Nat).exhausted = false) ∧
    (((fun _ => (([] : List Nat), some 5)) (pendKey (initQR none : QRState Nat))).1 =
      []) ∧
    (nextItem (fun _ => (([] : List Nat), some 5)) (initQR none)).1 = none ∧
    nextItem (fun _ => (([] : List Nat), some 5))
        (⟨none, [7], 1, none, true, false⟩ : QRState Nat) =
      (none, (⟨none, [7], 1, none, true, false⟩ : QRState Nat)) ∧
    ((runQR (pagesServer [[1, 2], [3]]) 10 (initQR none)).1).length ≤
      ([[1, 2], [3]] : List (List Nat)).flatten.length :=
  ⟨by decide, rfl, rfl,
   c7_termination.1 _ _ (by decide) rfl rfl,
   c7_termination.2.1 _ _ (by decide) rfl,
   c7_termination.2.2 [[1, 2], [3]] none 10⟩

end Pydynox
